import Mathlib

set_option maxHeartbeats 1000000

/-!
Shallow embedding of the auto-reply subsystem of `main.go` (trigger matching,
rule management, message handling and persistence), with proofs of the
spec-level properties. Go strings are modelled as lists of unicode scalar
values (`List Char`); ASCII case folding models `strings.ToLower` and
`strings.EqualFold`, which agree with Go on basic-latin input.
-/

namespace Bot

/-- A Go string, modelled as its sequence of runes. -/
abbrev GoStr := List Char

/-- `unicode.IsSpace` restricted to the Latin-1 range: tab, newline, vertical
tab, form feed, carriage return, space, NEL and NBSP. -/
def isSpaceGo (c : Char) : Bool :=
  c == ' ' || c == '\t' || c == '\n' || c == '\x0b' || c == '\x0c' || c == '\r' ||
    c == '\x85' || c == '\xa0'

/-- The punctuation cutset of `containsWholeWord`: the runes of the Go literal
passed to `strings.Trim` (period, comma, bang, question mark, semicolon, colon,
double quote, apostrophe, parentheses, square brackets, curly braces, star). -/
def cutset : GoStr :=
  ['.', ',', '!', '?', ';', ':', '"', Char.ofNat 39, '(', ')', '[', ']',
    '\x7b', '\x7d', '*']

/-- Membership in the trim cutset, as `strings.Trim` tests each rune. -/
def isCut (c : Char) : Bool := cutset.contains c

/-- `strings.ToLower` on ASCII input: `Char.toLower` lowers exactly the basic
latin capitals, as Go does on that range. -/
def toLowerGo (s : GoStr) : GoStr := s.map Char.toLower

/-- `strings.TrimSpace`: drop leading and trailing whitespace runes. -/
def trimSpaceGo (s : GoStr) : GoStr :=
  ((s.dropWhile isSpaceGo).reverse.dropWhile isSpaceGo).reverse

/-- Word accumulator for `fieldsGo` (`acc` holds the current word reversed). -/
def fieldsAux : GoStr → GoStr → List GoStr
  | acc, [] => if acc = [] then [] else [acc.reverse]
  | acc, c :: cs =>
    if isSpaceGo c then
      if acc = [] then fieldsAux [] cs else acc.reverse :: fieldsAux [] cs
    else fieldsAux (c :: acc) cs

/-- `strings.Fields`: split the string around maximal runs of whitespace,
returning the non-empty words. -/
def fieldsGo (s : GoStr) : List GoStr := fieldsAux [] s

/-- `strings.Trim(word, ".,!?;:\"'()[]\x7b\x7d*")`: strip leading and trailing
cutset runes. -/
def trimCut (w : GoStr) : GoStr :=
  ((w.dropWhile isCut).reverse.dropWhile isCut).reverse

/-- `containsWholeWord` from main.go: true iff some whitespace-separated word
of the message, stripped of leading/trailing punctuation, equals the trigger
exactly (byte equality, no case folding of its own). -/
def containsWholeWord (message trig : GoStr) : Bool :=
  (fieldsGo message).any (fun word => trimCut word == trig)

/-- The `AutoReply` struct: one auto-reply rule. -/
structure AutoReply where
  Trigger : GoStr
  Response : GoStr
  AuthorID : GoStr
deriving DecidableEq

/-- `strings.EqualFold` under ASCII simple folding. -/
def eqFold (a b : GoStr) : Bool := toLowerGo a == toLowerGo b

/-- `ServerAutoReplies`: the map from guild id to rule list, modelled as an
association list (Go map iteration order is irrelevant to the claims; keys
are unique in every reachable store). -/
abbrev Store := List (GoStr × List AutoReply)

/-- Go map lookup `serverAutoReplies[guildID]`; `none` models the nil slice. -/
def findGuild (s : Store) (g : GoStr) : Option (List AutoReply) :=
  match s with
  | [] => none
  | kv :: rest => if kv.1 = g then some kv.2 else findGuild rest g

/-- Go map assignment `serverAutoReplies[guildID] = v`. -/
def setGuild (s : Store) (g : GoStr) (v : List AutoReply) : Store :=
  match s with
  | [] => [(g, v)]
  | kv :: rest => if kv.1 = g then (kv.1, v) :: rest else kv :: setGuild rest g v

/-- Go `delete(serverAutoReplies, guildID)`. -/
def delGuild (s : Store) (g : GoStr) : Store :=
  match s with
  | [] => []
  | kv :: rest => if kv.1 = g then rest else kv :: delGuild rest g

/-- Result of a rule-manager call: the updated store, the `(bool, string)`
the Go function returns (its third component is always the empty string and is
dropped), and whether the path invoked `saveAutoReplies`. -/
structure OpResult where
  store : Store
  ok : Bool
  message : GoStr
  saved : Bool
deriving DecidableEq

/-- The ownership-conflict message `fmt.Sprintf("you can't change this you
bartard <@%s>", authorID)`; `Char.ofNat 39` is the apostrophe. -/
def msgOwnership (authorID : GoStr) : GoStr :=
  ("you can".toList ++ [Char.ofNat 39] ++ "t change this you bartard <@".toList)
    ++ authorID ++ ">".toList

/-- Success message of the update branch of `addAutoReply`. -/
def msgUpdated : GoStr := "Auto-reply updated successfully!".toList

/-- Success message of the append branch of `addAutoReply`. -/
def msgCreated : GoStr := "Auto-reply created successfully!".toList

/-- Success message of `removeAutoReply`. -/
def msgRemoved : GoStr := "Auto-reply removed successfully!".toList

/-- Not-found message of `removeAutoReply`. -/
def msgNotFound : GoStr := "No auto-reply found for that trigger.".toList

/-- Outcome of the trigger-scan loop inside `addAutoReply`. -/
inductive AddScan where
  | conflict
  | updated (rules : List AutoReply)
  | noMatch
deriving DecidableEq

/-- The `for i, reply := range serverAutoReplies[guildID]` loop of
`addAutoReply`: the first rule whose trigger is `EqualFold`-equal to the call
trigger decides the outcome; on update the rule's `Response` and `AuthorID`
are overwritten in place. -/
def addScan (trig resp auth : GoStr) : List AutoReply → AddScan
  | [] => .noMatch
  | r :: rest =>
    if eqFold r.Trigger trig then
      if r.AuthorID ≠ [] ∧ r.AuthorID ≠ auth then .conflict
      else .updated ({ r with Response := resp, AuthorID := auth } :: rest)
    else
      match addScan trig resp auth rest with
      | .conflict => .conflict
      | .updated rs => .updated (r :: rs)
      | .noMatch => .noMatch

/-- `addAutoReply` from main.go: initialize the guild entry if absent, scan for
an `EqualFold`-equal trigger (ownership check, update in place), else append a
new rule with the lower-cased trigger. -/
def addAutoReply (store : Store) (trig resp auth guild : GoStr) : OpResult :=
  let store1 := match findGuild store guild with
    | none => setGuild store guild []
    | some _ => store
  let rules := (findGuild store1 guild).getD []
  match addScan trig resp auth rules with
  | .conflict => ⟨store1, false, msgOwnership auth, false⟩
  | .updated rs => ⟨setGuild store1 guild rs, true, msgUpdated, true⟩
  | .noMatch =>
    ⟨setGuild store1 guild (rules ++ [⟨toLowerGo trig, resp, auth⟩]), true,
      msgCreated, true⟩

/-- Outcome of the trigger-scan loop inside `removeAutoReply`. -/
inductive RemScan where
  | conflict
  | removed (rules : List AutoReply)
  | noMatch
deriving DecidableEq

/-- The scan loop of `removeAutoReply`: the first `EqualFold`-equal rule
decides; on success it is removed from the slice. -/
def removeScan (trig auth : GoStr) : List AutoReply → RemScan
  | [] => .noMatch
  | r :: rest =>
    if eqFold r.Trigger trig then
      if r.AuthorID ≠ [] ∧ r.AuthorID ≠ auth then .conflict
      else .removed rest
    else
      match removeScan trig auth rest with
      | .conflict => .conflict
      | .removed rs => .removed (r :: rs)
      | .noMatch => .noMatch

/-- `removeAutoReply` from main.go: nil guild entry means not found; otherwise
scan (ownership check, remove), and delete the guild key when its rule list
becomes empty. -/
def removeAutoReply (store : Store) (trig auth guild : GoStr) : OpResult :=
  match findGuild store guild with
  | none => ⟨store, false, msgNotFound, false⟩
  | some rules =>
    match removeScan trig auth rules with
    | .conflict => ⟨store, false, msgOwnership auth, false⟩
    | .removed rs =>
      if rs.isEmpty then ⟨delGuild store guild, true, msgRemoved, true⟩
      else ⟨setGuild store guild rs, true, msgRemoved, true⟩
    | .noMatch => ⟨store, false, msgNotFound, false⟩

/-- The fields of a `discordgo.MessageCreate` event that `messageCreate`
consults. -/
structure Msg where
  authorIsBot : Bool
  guildID : GoStr
  content : GoStr

/-- `messageCreate` from main.go, as the rule whose response is sent as the
reply (`none` when no reply is sent): ignore bot authors and DMs, skip guilds
with no rules, lower-case the trimmed content, skip empty content, and apply
the first rule whose trigger matches (`break` after the first hit). -/
def messageCreate (store : Store) (m : Msg) : Option AutoReply :=
  if m.authorIsBot then none
  else if m.guildID = [] then none
  else if ((findGuild store m.guildID).getD []).length = 0 then none
  else if toLowerGo (trimSpaceGo m.content) = [] then none
  else ((findGuild store m.guildID).getD []).find?
    (fun r => containsWholeWord (toLowerGo (trimSpaceGo m.content)) r.Trigger)

/-- The match test the message handler applies to a stored trigger:
`containsWholeWord(strings.ToLower(strings.TrimSpace(text)), trigger)`. -/
def matchesRule (text trig : GoStr) : Bool :=
  containsWholeWord (toLowerGo (trimSpaceGo text)) trig

/-- Stores reachable from the empty store by the two rule-manager mutators. -/
inductive Reachable : Store → Prop where
  | empty : Reachable []
  | add (t r a g : GoStr) {s : Store} : Reachable s →
      Reachable (addAutoReply s t r a g).store
  | remove (t a g : GoStr) {s : Store} : Reachable s →
      Reachable (removeAutoReply s t a g).store

/-- One serialized rule of the persisted JSON document; `author_id` carries
`omitempty`, so it is absent exactly when the field would marshal as `""`. -/
structure RuleJSON where
  trigger : GoStr
  response : GoStr
  author_id : Option GoStr
deriving DecidableEq

/-- `json.Marshal` of one `AutoReply` under the struct tags of main.go. -/
def marshalRule (r : AutoReply) : RuleJSON :=
  ⟨r.Trigger, r.Response, if r.AuthorID = [] then none else some r.AuthorID⟩

/-- `json.Unmarshal` of one serialized rule: a missing `author_id` reads back
as the empty string. -/
def unmarshalRule (d : RuleJSON) : AutoReply :=
  ⟨d.trigger, d.response, d.author_id.getD []⟩

/-- The document `saveAutoReplies` writes: each scope's rule list serialized
in order. -/
def saveAutoReplies (s : Store) : List (GoStr × List RuleJSON) :=
  s.map (fun kv => (kv.1, kv.2.map marshalRule))

/-- `loadAutoReplies` applied to such a document: each scope's list read back
in order. -/
def loadAutoReplies (d : List (GoStr × List RuleJSON)) : Store :=
  d.map (fun kv => (kv.1, kv.2.map unmarshalRule))

/-- No two rules in a scope have `EqualFold`-equal triggers (§3, Rule Set
invariant). -/
def TrigUnique (rules : List AutoReply) : Prop :=
  (rules.map (fun r => r.Trigger)).Pairwise (fun a b => eqFold a b = false)

/-- Every trigger of the scope is already lower-cased. -/
def LowerTrigs (rules : List AutoReply) : Prop :=
  ∀ tr ∈ rules.map (fun r => r.Trigger), toLowerGo tr = tr

/-- Invariant of reachable stores: guild keys are unique, and each scope's
rules have pairwise non-equivalent, already lower-cased triggers. -/
def StoreInv (s : Store) : Prop :=
  (s.map Prod.fst).Nodup ∧
    ∀ g rules, findGuild s g = some rules → TrigUnique rules ∧ LowerTrigs rules

/-! ### Character-level facts about ASCII case folding -/

theorem char_eq_of_toNat_eq {c d : Char} (h : c.toNat = d.toNat) : c = d :=
  Char.ext (UInt32.toNat.inj h)

theorem toNat_ofNat_valid (m : Nat) (h : m < 55296) : (Char.ofNat m).toNat = m := by
  rw [Char.ofNat, dif_pos (Or.inl h)]
  simp only [Char.ofNatAux, Char.toNat, UInt32.toNat]
  simp

theorem toNat_toLower (c : Char) :
    c.toLower.toNat =
      if c.toNat ≥ 65 ∧ c.toNat ≤ 90 then c.toNat + 32 else c.toNat := by
  unfold Char.toLower
  split
  · next h =>
    rw [if_pos h, toNat_ofNat_valid]
    omega
  · next h => rw [if_neg h]

theorem toLower_toLower (c : Char) : c.toLower.toLower = c.toLower := by
  apply char_eq_of_toNat_eq
  have h1 := toNat_toLower c
  have h2 := toNat_toLower c.toLower
  by_cases hc : c.toNat ≥ 65 ∧ c.toNat ≤ 90
  · rw [if_pos hc] at h1
    rw [h1] at h2 ⊢
    rw [if_neg (by omega)] at h2
    exact h2
  · rw [if_neg hc] at h1
    rw [h1] at h2 ⊢
    rw [if_neg hc] at h2
    exact h2

theorem toLower_not_upper (c : Char) : ¬(c.toLower.toNat ≥ 65 ∧ c.toLower.toNat ≤ 90) := by
  have h := toNat_toLower c
  by_cases hc : c.toNat ≥ 65 ∧ c.toNat ≤ 90
  · rw [if_pos hc] at h; omega
  · rw [if_neg hc] at h; omega

theorem beq_char_toNat (c d : Char) : (c == d) = decide (c.toNat = d.toNat) := by
  by_cases h : c = d
  · subst h; simp
  · have hn : c.toNat ≠ d.toNat := fun hn => h (char_eq_of_toNat_eq hn)
    simp [h, hn]

theorem isSpaceGo_toNat (c : Char) :
    isSpaceGo c = decide (c.toNat = 32 ∨ c.toNat = 9 ∨ c.toNat = 10 ∨ c.toNat = 11 ∨
      c.toNat = 12 ∨ c.toNat = 13 ∨ c.toNat = 133 ∨ c.toNat = 160) := by
  unfold isSpaceGo
  rw [beq_char_toNat, beq_char_toNat, beq_char_toNat, beq_char_toNat, beq_char_toNat,
    beq_char_toNat, beq_char_toNat, beq_char_toNat]
  by_cases h : c.toNat = 32 ∨ c.toNat = 9 ∨ c.toNat = 10 ∨ c.toNat = 11 ∨
      c.toNat = 12 ∨ c.toNat = 13 ∨ c.toNat = 133 ∨ c.toNat = 160
  · rw [decide_eq_true h]
    rcases h with h | h | h | h | h | h | h | h <;> simp [h]
  · rw [decide_eq_false h]
    push_neg at h
    obtain ⟨h1, h2, h3, h4, h5, h6, h7, h8⟩ := h
    simp [h1, h2, h3, h4, h5, h6, h7, h8]

theorem isSpaceGo_toLower (c : Char) : isSpaceGo c.toLower = isSpaceGo c := by
  have h := toNat_toLower c
  by_cases hc : c.toNat ≥ 65 ∧ c.toNat ≤ 90
  · rw [if_pos hc] at h
    rw [isSpaceGo_toNat, isSpaceGo_toNat, h]
    have h1 : ¬(c.toNat + 32 = 32 ∨ c.toNat + 32 = 9 ∨ c.toNat + 32 = 10 ∨
        c.toNat + 32 = 11 ∨ c.toNat + 32 = 12 ∨ c.toNat + 32 = 13 ∨
        c.toNat + 32 = 133 ∨ c.toNat + 32 = 160) := by omega
    have h2 : ¬(c.toNat = 32 ∨ c.toNat = 9 ∨ c.toNat = 10 ∨ c.toNat = 11 ∨
        c.toNat = 12 ∨ c.toNat = 13 ∨ c.toNat = 133 ∨ c.toNat = 160) := by omega
    rw [decide_eq_false h1, decide_eq_false h2]
  · rw [if_neg hc] at h
    rw [isSpaceGo_toNat, isSpaceGo_toNat, h]

theorem toLowerGo_toLowerGo (s : GoStr) : toLowerGo (toLowerGo s) = toLowerGo s := by
  unfold toLowerGo
  rw [List.map_map]
  apply List.map_congr_left
  intro c _
  exact toLower_toLower c

theorem eqFold_refl (a : GoStr) : eqFold a a = true := by
  simp [eqFold]

theorem eqFold_toLower_right (a b : GoStr) : eqFold a (toLowerGo b) = eqFold a b := by
  unfold eqFold
  rw [toLowerGo_toLowerGo]

/-! ### `strings.Fields` recursion and trimming -/

theorem fieldsAux_ne (s : GoStr) : ∀ acc : GoStr, acc ≠ [] →
    fieldsAux acc s =
      (acc.reverse ++ s.takeWhile (fun x => !isSpaceGo x)) ::
        fieldsAux [] (s.dropWhile (fun x => !isSpaceGo x)) := by
  induction s with
  | nil => intro acc h; simp [fieldsAux, h]
  | cons c cs ih =>
    intro acc h
    by_cases hc : isSpaceGo c
    · simp [fieldsAux, hc, h, List.takeWhile_cons, List.dropWhile_cons]
    · simp only [fieldsAux, hc, List.takeWhile_cons, List.dropWhile_cons,
        Bool.not_false, if_false, ite_true, Bool.not_eq_true']
      rw [ih (c :: acc) (by simp)]
      simp

theorem fieldsGo_nil : fieldsGo [] = [] := rfl

theorem fieldsGo_cons (c : Char) (cs : GoStr) :
    fieldsGo (c :: cs) =
      if isSpaceGo c then fieldsGo cs
      else (c :: cs.takeWhile (fun x => !isSpaceGo x)) ::
        fieldsGo (cs.dropWhile (fun x => !isSpaceGo x)) := by
  by_cases hc : isSpaceGo c
  · simp [fieldsGo, fieldsAux, hc]
  · simp only [fieldsGo, fieldsAux, hc, if_false, ite_true, ite_false, Bool.false_eq_true]
    rw [fieldsAux_ne cs [c] (by simp)]
    simp

theorem fieldsGo_dropWhile_space (s : GoStr) :
    fieldsGo (s.dropWhile isSpaceGo) = fieldsGo s := by
  induction s with
  | nil => rfl
  | cons c cs ih =>
    by_cases hc : isSpaceGo c
    · rw [List.dropWhile_cons_of_pos hc, ih, fieldsGo_cons, if_pos hc]
    · rw [List.dropWhile_cons_of_neg (by simp [hc])]

theorem takeWhile_append_single {α : Type} (q : α → Bool) (t : List α) (c : α)
    (hc : q c = false) : (t ++ [c]).takeWhile q = t.takeWhile q := by
  induction t with
  | nil => simp [List.takeWhile_cons, hc]
  | cons a t ih => by_cases ha : q a <;> simp [List.takeWhile_cons, ha, ih]

theorem dropWhile_append_single {α : Type} (q : α → Bool) (t : List α) (c : α)
    (hc : q c = false) : (t ++ [c]).dropWhile q = t.dropWhile q ++ [c] := by
  induction t with
  | nil => simp [List.dropWhile_cons, hc]
  | cons a t ih => by_cases ha : q a <;> simp [List.dropWhile_cons, ha, ih]

theorem fieldsGo_append_space_aux (c : Char) (hc : isSpaceGo c = true) :
    ∀ (n : Nat) (s : GoStr), s.length ≤ n → fieldsGo (s ++ [c]) = fieldsGo s := by
  intro n
  induction n with
  | zero =>
    intro s hs
    have : s = [] := List.length_eq_zero.mp (Nat.le_zero.mp hs)
    subst this
    simp [fieldsGo, fieldsAux, hc]
  | succ n ih =>
    intro s hs
    match s with
    | [] => simp [fieldsGo, fieldsAux, hc]
    | a :: t =>
      simp only [List.length_cons, Nat.add_le_add_iff_right] at hs
      by_cases ha : isSpaceGo a
      · rw [List.cons_append, fieldsGo_cons, if_pos ha, fieldsGo_cons, if_pos ha]
        exact ih t hs
      · rw [List.cons_append, fieldsGo_cons, if_neg (by simp [ha]),
          fieldsGo_cons, if_neg (by simp [ha])]
        rw [takeWhile_append_single _ t c (by simp [hc]),
          dropWhile_append_single _ t c (by simp [hc])]
        congr 1
        apply ih
        have := (List.dropWhile_sublist (l := t) (fun x => !isSpaceGo x)).length_le
        omega

theorem fieldsGo_append_space (c : Char) (hc : isSpaceGo c = true) (s : GoStr) :
    fieldsGo (s ++ [c]) = fieldsGo s :=
  fieldsGo_append_space_aux c hc s.length s (Nat.le_refl _)

theorem fieldsGo_append_allspace (w : GoStr) :
    ∀ t : GoStr, (∀ x ∈ t, isSpaceGo x = true) → fieldsGo (w ++ t) = fieldsGo w := by
  intro t
  induction t using List.reverseRecOn generalizing w with
  | nil => simp
  | append_singleton t x ih =>
    intro ht
    rw [← List.append_assoc, fieldsGo_append_space x (ht x (by simp))]
    exact ih w (fun y hy => ht y (by simp [hy]))

theorem fieldsGo_trimSpace (s : GoStr) : fieldsGo (trimSpaceGo s) = fieldsGo s := by
  unfold trimSpaceGo
  have hsplit : s.dropWhile isSpaceGo =
      ((s.dropWhile isSpaceGo).reverse.dropWhile isSpaceGo).reverse ++
        ((s.dropWhile isSpaceGo).reverse.takeWhile isSpaceGo).reverse := by
    rw [← List.reverse_append, List.takeWhile_append_dropWhile, List.reverse_reverse]
  calc fieldsGo ((s.dropWhile isSpaceGo).reverse.dropWhile isSpaceGo).reverse
      = fieldsGo (((s.dropWhile isSpaceGo).reverse.dropWhile isSpaceGo).reverse ++
          ((s.dropWhile isSpaceGo).reverse.takeWhile isSpaceGo).reverse) := by
        rw [fieldsGo_append_allspace]
        intro x hx
        rw [List.mem_reverse] at hx
        exact List.mem_takeWhile_imp hx
    _ = fieldsGo (s.dropWhile isSpaceGo) := by rw [← hsplit]
    _ = fieldsGo s := fieldsGo_dropWhile_space s

theorem dropWhile_space_map_toLower (l : GoStr) :
    (l.map Char.toLower).dropWhile isSpaceGo = (l.dropWhile isSpaceGo).map Char.toLower := by
  have hq : (isSpaceGo ∘ Char.toLower) = isSpaceGo := funext isSpaceGo_toLower
  rw [List.dropWhile_map, hq]

theorem trimSpaceGo_toLower (s : GoStr) :
    toLowerGo (trimSpaceGo s) = trimSpaceGo (toLowerGo s) := by
  unfold trimSpaceGo toLowerGo
  rw [dropWhile_space_map_toLower s, ← List.map_reverse, dropWhile_space_map_toLower,
    ← List.map_reverse]

theorem fieldsGo_handler_content (s : GoStr) :
    fieldsGo (toLowerGo (trimSpaceGo s)) = fieldsGo (toLowerGo s) := by
  rw [trimSpaceGo_toLower, fieldsGo_trimSpace]

/-! ### Association-list lemmas for the guild map -/

theorem findGuild_setGuild_self (s : Store) (g : GoStr) (v : List AutoReply) :
    findGuild (setGuild s g v) g = some v := by
  induction s with
  | nil => simp [setGuild, findGuild]
  | cons kv rest ih =>
    by_cases h : kv.1 = g <;> simp [setGuild, findGuild, h, ih]

theorem findGuild_setGuild_ne (s : Store) (g g' : GoStr) (v : List AutoReply)
    (h : g ≠ g') : findGuild (setGuild s g v) g' = findGuild s g' := by
  induction s with
  | nil => simp [setGuild, findGuild, h]
  | cons kv rest ih =>
    by_cases hk : kv.1 = g
    · subst hk
      simp [setGuild, findGuild, h, ih]
    · simp [setGuild, findGuild, hk, ih]

theorem setGuild_find_self (s : Store) (g : GoStr) (v : List AutoReply)
    (h : findGuild s g = some v) : setGuild s g v = s := by
  induction s with
  | nil => simp [findGuild] at h
  | cons kv rest ih =>
    obtain ⟨k, w⟩ := kv
    by_cases hk : k = g
    · simp only [findGuild, hk, if_true, Option.some.injEq, if_pos] at h
      simp [setGuild, hk, h]
    · simp only [findGuild, hk, if_false, ite_false] at h
      simp [setGuild, hk, ih h]

theorem setGuild_setGuild (s : Store) (g : GoStr) (v w : List AutoReply) :
    setGuild (setGuild s g v) g w = setGuild s g w := by
  induction s with
  | nil => simp [setGuild]
  | cons kv rest ih =>
    by_cases hk : kv.1 = g <;> simp [setGuild, hk, ih]

theorem findGuild_eq_none_of_not_mem (s : Store) (g : GoStr)
    (h : g ∉ s.map Prod.fst) : findGuild s g = none := by
  induction s with
  | nil => rfl
  | cons kv rest ih =>
    simp only [List.map_cons, List.mem_cons, not_or] at h
    simp [findGuild, Ne.symm h.1, ih h.2]

theorem findGuild_delGuild_self (s : Store) (g : GoStr)
    (hnd : (s.map Prod.fst).Nodup) : findGuild (delGuild s g) g = none := by
  induction s with
  | nil => simp [delGuild, findGuild]
  | cons kv rest ih =>
    simp only [List.map_cons, List.nodup_cons] at hnd
    by_cases hk : kv.1 = g
    · subst hk
      simpa [delGuild] using findGuild_eq_none_of_not_mem rest kv.1 hnd.1
    · simp [delGuild, findGuild, hk, ih hnd.2]

theorem findGuild_delGuild_ne (s : Store) (g g' : GoStr) (h : g ≠ g') :
    findGuild (delGuild s g) g' = findGuild s g' := by
  induction s with
  | nil => rfl
  | cons kv rest ih =>
    by_cases hk : kv.1 = g
    · subst hk
      simp [delGuild, findGuild, h]
    · simp [delGuild, findGuild, hk, ih]

theorem keys_setGuild (s : Store) (g : GoStr) (v : List AutoReply) :
    (setGuild s g v).map Prod.fst =
      if g ∈ s.map Prod.fst then s.map Prod.fst else s.map Prod.fst ++ [g] := by
  induction s with
  | nil => simp [setGuild]
  | cons kv rest ih =>
    by_cases hk : kv.1 = g
    · subst hk
      simp [setGuild]
    · simp only [setGuild, hk, ite_false, List.map_cons, ih, List.mem_cons]
      by_cases hg : g ∈ rest.map Prod.fst
      · simp [hg, Ne.symm hk]
      · simp [hg, Ne.symm hk, fun h : g = kv.1 => hk h.symm]

theorem nodup_keys_setGuild (s : Store) (g : GoStr) (v : List AutoReply)
    (hnd : (s.map Prod.fst).Nodup) : ((setGuild s g v).map Prod.fst).Nodup := by
  rw [keys_setGuild]
  by_cases hg : g ∈ s.map Prod.fst
  · simpa [hg] using hnd
  · simp only [hg, ite_false, if_false]
    rw [List.nodup_append]
    refine ⟨hnd, List.nodup_singleton g, ?_⟩
    intro a ha
    simp only [List.mem_singleton]
    exact fun hag => hg (hag ▸ ha)

theorem delGuild_sublist (s : Store) (g : GoStr) : List.Sublist (delGuild s g) s := by
  induction s with
  | nil => simp [delGuild]
  | cons kv rest ih =>
    by_cases hk : kv.1 = g
    · simp only [delGuild, hk, ite_true, if_true]
      exact List.sublist_cons_self kv rest
    · simp only [delGuild, hk, ite_false, if_false]
      exact List.Sublist.cons₂ kv ih

theorem nodup_keys_delGuild (s : Store) (g : GoStr)
    (hnd : (s.map Prod.fst).Nodup) : ((delGuild s g).map Prod.fst).Nodup :=
  hnd.sublist ((delGuild_sublist s g).map Prod.fst)

/-! ### Scan-loop lemmas -/

theorem eqFold_toLower_left (a b : GoStr) : eqFold (toLowerGo a) b = eqFold a b := by
  unfold eqFold
  rw [toLowerGo_toLowerGo]

theorem addScan_nomatch_of (t resp a : GoStr) (rules : List AutoReply)
    (h : ∀ r ∈ rules, eqFold r.Trigger t = false) :
    addScan t resp a rules = .noMatch := by
  induction rules with
  | nil => rfl
  | cons x rest ih =>
    have hx := h x (by simp)
    simp only [addScan, hx, Bool.false_eq_true, if_false, ite_false]
    rw [ih (fun r hr => h r (by simp [hr]))]

theorem addScan_nomatch (t resp a : GoStr) (rules : List AutoReply)
    (h : addScan t resp a rules = .noMatch) :
    ∀ r ∈ rules, eqFold r.Trigger t = false := by
  induction rules with
  | nil => simp
  | cons x rest ih =>
    intro r' hr'
    by_cases he : eqFold x.Trigger t
    · exfalso
      by_cases hc : x.AuthorID ≠ [] ∧ x.AuthorID ≠ a <;> simp [addScan, he, hc] at h
    · rcases List.mem_cons.mp hr' with rfl | hmem
      · simpa using he
      · simp only [addScan, he, Bool.false_eq_true, if_false, ite_false] at h
        split at h
        · exact absurd h (by simp)
        · exact absurd h (by simp)
        · next heq => exact ih heq r' hmem

theorem addScan_conflict_of_mem (resp a : GoStr) (rules : List AutoReply) (r : AutoReply)
    (huniq : TrigUnique rules) (hr : r ∈ rules)
    (h1 : r.AuthorID ≠ []) (h2 : r.AuthorID ≠ a) :
    addScan r.Trigger resp a rules = .conflict := by
  induction rules with
  | nil => cases hr
  | cons x rest ih =>
    rw [TrigUnique, List.map_cons, List.pairwise_cons] at huniq
    rcases List.mem_cons.mp hr with rfl | hmem
    · simp [addScan, eqFold_refl, h1, h2]
    · have hx : eqFold x.Trigger r.Trigger = false :=
        huniq.1 r.Trigger (List.mem_map_of_mem _ hmem)
      simp only [addScan, hx, Bool.false_eq_true, if_false, ite_false]
      rw [ih huniq.2 hmem]

theorem addScan_updated_triggers (t resp a : GoStr) (rules rs : List AutoReply)
    (h : addScan t resp a rules = .updated rs) :
    rs.map (fun r => r.Trigger) = rules.map (fun r => r.Trigger) := by
  induction rules generalizing rs with
  | nil => simp [addScan] at h
  | cons x rest ih =>
    by_cases he : eqFold x.Trigger t
    · by_cases hc : x.AuthorID ≠ [] ∧ x.AuthorID ≠ a
      · simp [addScan, he, hc] at h
      · simp only [addScan, he, if_true, hc, ite_true, ite_false,
          AddScan.updated.injEq] at h
        subst h
        simp
    · simp only [addScan, he, Bool.false_eq_true, if_false, ite_false] at h
      split at h
      · exact absurd h (by simp)
      · next rs' heq =>
        rw [AddScan.updated.injEq] at h
        subst h
        simp [ih rs' heq]
      · exact absurd h (by simp)

theorem addScan_updated_again (t resp a : GoStr) (rules rs : List AutoReply)
    (h : addScan t resp a rules = .updated rs) :
    addScan t resp a rs = .updated rs := by
  induction rules generalizing rs with
  | nil => simp [addScan] at h
  | cons x rest ih =>
    by_cases he : eqFold x.Trigger t
    · by_cases hc : x.AuthorID ≠ [] ∧ x.AuthorID ≠ a
      · simp [addScan, he, hc] at h
      · simp only [addScan, he, if_true, hc, ite_true, ite_false,
          AddScan.updated.injEq] at h
        subst h
        simp [addScan, he, hc]
    · simp only [addScan, he, Bool.false_eq_true, if_false, ite_false] at h
      split at h
      · exact absurd h (by simp)
      · next rs' heq =>
        rw [AddScan.updated.injEq] at h
        subst h
        simp only [addScan, he, Bool.false_eq_true, if_false, ite_false]
        rw [ih rs' heq]
      · exact absurd h (by simp)

theorem addScan_append (t resp a : GoStr) (l1 l2 : List AutoReply)
    (h : ∀ r ∈ l1, eqFold r.Trigger t = false) :
    addScan t resp a (l1 ++ l2) =
      match addScan t resp a l2 with
      | .updated rs => .updated (l1 ++ rs)
      | x => x := by
  induction l1 with
  | nil =>
    simp only [List.nil_append]
    cases addScan t resp a l2 <;> rfl
  | cons x rest ih =>
    have hx := h x (by simp)
    simp only [List.cons_append, addScan, hx, Bool.false_eq_true, if_false, ite_false,
      List.append_eq]
    rw [ih (fun r hr => h r (by simp [hr]))]
    cases addScan t resp a l2 <;> simp

theorem removeScan_nomatch_of (t a : GoStr) (rules : List AutoReply)
    (h : ∀ r ∈ rules, eqFold r.Trigger t = false) :
    removeScan t a rules = .noMatch := by
  induction rules with
  | nil => rfl
  | cons x rest ih =>
    have hx := h x (by simp)
    simp only [removeScan, hx, Bool.false_eq_true, if_false, ite_false]
    rw [ih (fun r hr => h r (by simp [hr]))]

theorem removeScan_conflict_of_mem (a : GoStr) (rules : List AutoReply) (r : AutoReply)
    (huniq : TrigUnique rules) (hr : r ∈ rules)
    (h1 : r.AuthorID ≠ []) (h2 : r.AuthorID ≠ a) :
    removeScan r.Trigger a rules = .conflict := by
  induction rules with
  | nil => cases hr
  | cons x rest ih =>
    rw [TrigUnique, List.map_cons, List.pairwise_cons] at huniq
    rcases List.mem_cons.mp hr with rfl | hmem
    · simp [removeScan, eqFold_refl, h1, h2]
    · have hx : eqFold x.Trigger r.Trigger = false :=
        huniq.1 r.Trigger (List.mem_map_of_mem _ hmem)
      simp only [removeScan, hx, Bool.false_eq_true, if_false, ite_false]
      rw [ih huniq.2 hmem]

theorem removeScan_removed_sublist (t a : GoStr) (rules rs : List AutoReply)
    (h : removeScan t a rules = .removed rs) : List.Sublist rs rules := by
  induction rules generalizing rs with
  | nil => simp [removeScan] at h
  | cons x rest ih =>
    by_cases he : eqFold x.Trigger t
    · by_cases hc : x.AuthorID ≠ [] ∧ x.AuthorID ≠ a
      · simp [removeScan, he, hc] at h
      · simp only [removeScan, he, if_true, hc, ite_true, ite_false,
          RemScan.removed.injEq] at h
        subst h
        exact List.sublist_cons_self _ _
    · simp only [removeScan, he, Bool.false_eq_true, if_false, ite_false] at h
      split at h
      · exact absurd h (by simp)
      · next rs' heq =>
        rw [RemScan.removed.injEq] at h
        subst h
        exact List.Sublist.cons₂ x (ih rs' heq)
      · exact absurd h (by simp)

/-! ### Unfolding lemmas for the rule-manager functions -/

theorem addAutoReply_none (store : Store) (t resp a g : GoStr)
    (h : findGuild store g = none) :
    addAutoReply store t resp a g =
      ⟨setGuild store g [⟨toLowerGo t, resp, a⟩], true, msgCreated, true⟩ := by
  unfold addAutoReply
  simp [h, findGuild_setGuild_self, addScan, setGuild_setGuild]

theorem addAutoReply_conflict (store : Store) (t resp a g : GoStr)
    (rules : List AutoReply) (h : findGuild store g = some rules)
    (hscan : addScan t resp a rules = .conflict) :
    addAutoReply store t resp a g = ⟨store, false, msgOwnership a, false⟩ := by
  unfold addAutoReply
  simp [h, hscan]

theorem addAutoReply_updated (store : Store) (t resp a g : GoStr)
    (rules rs : List AutoReply) (h : findGuild store g = some rules)
    (hscan : addScan t resp a rules = .updated rs) :
    addAutoReply store t resp a g = ⟨setGuild store g rs, true, msgUpdated, true⟩ := by
  unfold addAutoReply
  simp [h, hscan]

theorem addAutoReply_nomatch (store : Store) (t resp a g : GoStr)
    (rules : List AutoReply) (h : findGuild store g = some rules)
    (hscan : addScan t resp a rules = .noMatch) :
    addAutoReply store t resp a g =
      ⟨setGuild store g (rules ++ [⟨toLowerGo t, resp, a⟩]), true, msgCreated, true⟩ := by
  unfold addAutoReply
  simp [h, hscan]

theorem removeAutoReply_none (store : Store) (t a g : GoStr)
    (h : findGuild store g = none) :
    removeAutoReply store t a g = ⟨store, false, msgNotFound, false⟩ := by
  unfold removeAutoReply
  simp [h]

theorem removeAutoReply_conflict (store : Store) (t a g : GoStr)
    (rules : List AutoReply) (h : findGuild store g = some rules)
    (hscan : removeScan t a rules = .conflict) :
    removeAutoReply store t a g = ⟨store, false, msgOwnership a, false⟩ := by
  unfold removeAutoReply
  simp [h, hscan]

theorem removeAutoReply_removed (store : Store) (t a g : GoStr)
    (rules rs : List AutoReply) (h : findGuild store g = some rules)
    (hscan : removeScan t a rules = .removed rs) :
    removeAutoReply store t a g =
      if rs.isEmpty then ⟨delGuild store g, true, msgRemoved, true⟩
      else ⟨setGuild store g rs, true, msgRemoved, true⟩ := by
  unfold removeAutoReply
  simp [h, hscan]

theorem removeAutoReply_nomatch (store : Store) (t a g : GoStr)
    (rules : List AutoReply) (h : findGuild store g = some rules)
    (hscan : removeScan t a rules = .noMatch) :
    removeAutoReply store t a g = ⟨store, false, msgNotFound, false⟩ := by
  unfold removeAutoReply
  simp [h, hscan]

/-! ### The reachable-store invariant -/

theorem trigUnique_of_map_eq {rules rs : List AutoReply}
    (h : rs.map (fun r => r.Trigger) = rules.map (fun r => r.Trigger))
    (hu : TrigUnique rules) : TrigUnique rs := by
  rw [TrigUnique, h]
  exact hu

theorem lowerTrigs_of_map_eq {rules rs : List AutoReply}
    (h : rs.map (fun r => r.Trigger) = rules.map (fun r => r.Trigger))
    (hl : LowerTrigs rules) : LowerTrigs rs := by
  rw [LowerTrigs, h]
  exact hl

theorem storeInv_setGuild (s : Store) (hinv : StoreInv s) (g : GoStr)
    (v : List AutoReply) (hv : TrigUnique v ∧ LowerTrigs v) :
    StoreInv (setGuild s g v) := by
  refine ⟨nodup_keys_setGuild s g v hinv.1, ?_⟩
  intro g' rules hfind
  by_cases hg : g = g'
  · subst hg
    rw [findGuild_setGuild_self, Option.some.injEq] at hfind
    subst hfind
    exact hv
  · rw [findGuild_setGuild_ne s g g' v hg] at hfind
    exact hinv.2 g' rules hfind

theorem storeInv_delGuild (s : Store) (hinv : StoreInv s) (g : GoStr) :
    StoreInv (delGuild s g) := by
  refine ⟨nodup_keys_delGuild s g hinv.1, ?_⟩
  intro g' rules hfind
  by_cases hg : g = g'
  · subst hg
    rw [findGuild_delGuild_self s g hinv.1] at hfind
    cases hfind
  · rw [findGuild_delGuild_ne s g g' hg] at hfind
    exact hinv.2 g' rules hfind

theorem storeInv_add (s : Store) (hinv : StoreInv s) (t resp a g : GoStr) :
    StoreInv (addAutoReply s t resp a g).store := by
  cases hfind : findGuild s g with
  | none =>
    rw [addAutoReply_none s t resp a g hfind]
    refine storeInv_setGuild s hinv g _ ⟨?_, ?_⟩
    · rw [TrigUnique]
      simp
    · rw [LowerTrigs]
      intro tr htr
      simp only [List.map_cons, List.map_nil, List.mem_singleton] at htr
      subst htr
      exact toLowerGo_toLowerGo t
  | some rules =>
    have hrules := hinv.2 g rules hfind
    cases hscan : addScan t resp a rules with
    | conflict =>
      rw [addAutoReply_conflict s t resp a g rules hfind hscan]
      exact hinv
    | updated rs =>
      rw [addAutoReply_updated s t resp a g rules rs hfind hscan]
      refine storeInv_setGuild s hinv g rs ⟨?_, ?_⟩
      · exact trigUnique_of_map_eq (addScan_updated_triggers _ _ _ _ _ hscan) hrules.1
      · exact lowerTrigs_of_map_eq (addScan_updated_triggers _ _ _ _ _ hscan) hrules.2
    | noMatch =>
      rw [addAutoReply_nomatch s t resp a g rules hfind hscan]
      have hno := addScan_nomatch t resp a rules hscan
      refine storeInv_setGuild s hinv g _ ⟨?_, ?_⟩
      · rw [TrigUnique, List.map_append, List.pairwise_append]
        refine ⟨hrules.1, by simp, ?_⟩
        intro x hx y hy
        simp only [List.map_cons, List.map_nil, List.mem_singleton] at hy
        subst hy
        obtain ⟨r, hr, rfl⟩ := List.mem_map.mp hx
        rw [eqFold_toLower_right]
        exact hno r hr
      · rw [LowerTrigs]
        intro tr htr
        rw [List.map_append] at htr
        rcases List.mem_append.mp htr with h1 | h2
        · exact hrules.2 tr h1
        · simp only [List.map_cons, List.map_nil, List.mem_singleton] at h2
          subst h2
          exact toLowerGo_toLowerGo t

theorem storeInv_remove (s : Store) (hinv : StoreInv s) (t a g : GoStr) :
    StoreInv (removeAutoReply s t a g).store := by
  cases hfind : findGuild s g with
  | none =>
    rw [removeAutoReply_none s t a g hfind]
    exact hinv
  | some rules =>
    have hrules := hinv.2 g rules hfind
    cases hscan : removeScan t a rules with
    | conflict =>
      rw [removeAutoReply_conflict s t a g rules hfind hscan]
      exact hinv
    | removed rs =>
      rw [removeAutoReply_removed s t a g rules rs hfind hscan]
      by_cases he : rs.isEmpty
      · rw [if_pos he]
        exact storeInv_delGuild s hinv g
      · rw [if_neg he]
        have hsub := removeScan_removed_sublist t a rules rs hscan
        refine storeInv_setGuild s hinv g rs ⟨?_, ?_⟩
        · exact hrules.1.sublist (hsub.map _)
        · intro tr htr
          exact hrules.2 tr ((hsub.map _).subset htr)
    | noMatch =>
      rw [removeAutoReply_nomatch s t a g rules hfind hscan]
      exact hinv

theorem reachable_inv {s : Store} (h : Reachable s) : StoreInv s := by
  induction h with
  | empty =>
    exact ⟨List.nodup_nil, fun g rules hg => by simp [findGuild] at hg⟩
  | add t r a g _ ih => exact storeInv_add _ ih t r a g
  | remove t a g _ ih => exact storeInv_remove _ ih t a g

/-! ### Matcher and handler consequences -/

theorem mem_fieldsGo_subset_aux :
    ∀ (n : Nat) (s : GoStr), s.length ≤ n → ∀ w ∈ fieldsGo s, ∀ c ∈ w, c ∈ s := by
  intro n
  induction n with
  | zero =>
    intro s hs
    have : s = [] := List.length_eq_zero.mp (Nat.le_zero.mp hs)
    subst this
    simp [fieldsGo_nil]
  | succ n ih =>
    intro s hs w hw c hc
    match s with
    | [] => simp [fieldsGo_nil] at hw
    | a :: t =>
      simp only [List.length_cons, Nat.add_le_add_iff_right] at hs
      rw [fieldsGo_cons] at hw
      by_cases ha : isSpaceGo a
      · rw [if_pos ha] at hw
        exact List.mem_cons_of_mem a (ih t hs w hw c hc)
      · rw [if_neg ha] at hw
        rcases List.mem_cons.mp hw with rfl | hw'
        · rcases List.mem_cons.mp hc with rfl | hc'
          · exact List.mem_cons_self c t
          · exact List.mem_cons_of_mem a ((List.takeWhile_sublist _).subset hc')
        · have hlen : (t.dropWhile (fun x => !isSpaceGo x)).length ≤ n := by
            have := (List.dropWhile_sublist (l := t) (fun x => !isSpaceGo x)).length_le
            omega
          have := ih _ hlen w hw' c hc
          exact List.mem_cons_of_mem a ((List.dropWhile_sublist _).subset this)

theorem mem_fieldsGo_subset (s : GoStr) (w : GoStr) (hw : w ∈ fieldsGo s) :
    ∀ c ∈ w, c ∈ s :=
  mem_fieldsGo_subset_aux s.length s (Nat.le_refl _) w hw

theorem trimCut_subset (w : GoStr) : ∀ c ∈ trimCut w, c ∈ w := by
  intro c hc
  unfold trimCut at hc
  rw [List.mem_reverse] at hc
  have h1 := (List.dropWhile_sublist (l := (w.dropWhile isCut).reverse) isCut).subset hc
  rw [List.mem_reverse] at h1
  exact (List.dropWhile_sublist isCut).subset h1

theorem trimCut_allcut (w : GoStr) (h : ∀ c ∈ w, isCut c = true) : trimCut w = [] := by
  unfold trimCut
  rw [List.dropWhile_eq_nil_iff.mpr h]
  simp

theorem messageCreate_some (store : Store) (m : Msg) (r : AutoReply)
    (h : messageCreate store m = some r) :
    containsWholeWord (toLowerGo (trimSpaceGo m.content)) r.Trigger = true ∧
      ∃ pre post, (findGuild store m.guildID).getD [] = pre ++ r :: post ∧
        ∀ r' ∈ pre,
          containsWholeWord (toLowerGo (trimSpaceGo m.content)) r'.Trigger = false := by
  unfold messageCreate at h
  split at h
  · exact absurd h (by simp)
  split at h
  · exact absurd h (by simp)
  split at h
  · exact absurd h (by simp)
  split at h
  · exact absurd h (by simp)
  rw [List.find?_eq_some] at h
  obtain ⟨hpb, pre, post, hsplit, hpre⟩ := h
  refine ⟨hpb, pre, post, hsplit, fun r' hr' => ?_⟩
  simpa using hpre r' hr'

/-! ### Claim theorems -/

/-- C1: for every reachable store and every rule stored in a scope, the match
test the handler applies (`containsWholeWord` over the lower-cased, trimmed
text) is true iff the case-folded trigger occurs as a standalone token of the
case-folded text, where tokens are whitespace-split words with leading and
trailing punctuation stripped; in particular a trigger that is a proper
substring of a longer token does not match. -/
theorem matchesRule_iff_standalone_token (store : Store) (hreach : Reachable store)
    (g : GoStr) (rules : List AutoReply) (r : AutoReply)
    (hg : findGuild store g = some rules) (hr : r ∈ rules) (text : GoStr) :
    matchesRule text r.Trigger = true ↔
      ∃ w ∈ fieldsGo (toLowerGo text), trimCut w = toLowerGo r.Trigger := by
  have hlow : toLowerGo r.Trigger = r.Trigger :=
    ((reachable_inv hreach).2 g rules hg).2 r.Trigger (List.mem_map_of_mem _ hr)
  rw [hlow]
  unfold matchesRule containsWholeWord
  rw [fieldsGo_handler_content]
  simp [List.any_eq_true]

/-- Witness for C1: the rule stored by `addAutoReply` for trigger `"Go"` in an
empty store, matched against the spec's Scenario-B style text containing the
token `"going"`. -/
theorem matchesRule_iff_standalone_token_witness :
    matchesRule "We are going home".toList
        (AutoReply.mk "go".toList "resp".toList "U1".toList).Trigger = true ↔
      ∃ w ∈ fieldsGo (toLowerGo "We are going home".toList),
        trimCut w = toLowerGo (AutoReply.mk "go".toList "resp".toList "U1".toList).Trigger :=
  matchesRule_iff_standalone_token _
    (Reachable.add "Go".toList "resp".toList "U1".toList "G1".toList Reachable.empty)
    "G1".toList [AutoReply.mk "go".toList "resp".toList "U1".toList]
    (AutoReply.mk "go".toList "resp".toList "U1".toList)
    (by decide) (by decide) "We are going home".toList

/-- C2: when a scope's rule has a non-empty author and the caller differs,
both `addAutoReply` and `removeAutoReply` on that rule's trigger fail with the
ownership-conflict message, perform no persistence write, and return the store
unchanged. -/
theorem ownership_conflict_no_mutation (store : Store) (g resp auth : GoStr)
    (rules : List AutoReply) (r : AutoReply)
    (hg : findGuild store g = some rules) (hr : r ∈ rules) (huniq : TrigUnique rules)
    (hown : r.AuthorID ≠ []) (hdiff : r.AuthorID ≠ auth) :
    addAutoReply store r.Trigger resp auth g =
        ⟨store, false, msgOwnership auth, false⟩ ∧
      removeAutoReply store r.Trigger auth g =
        ⟨store, false, msgOwnership auth, false⟩ :=
  ⟨addAutoReply_conflict store _ resp auth g rules hg
      (addScan_conflict_of_mem resp auth rules r huniq hr hown hdiff),
    removeAutoReply_conflict store _ auth g rules hg
      (removeScan_conflict_of_mem auth rules r huniq hr hown hdiff)⟩

/-- Witness for C2: caller `"U2"` against the rule `("hi","x")` owned by
`"U1"`. -/
theorem ownership_conflict_no_mutation_witness :
    addAutoReply [("G".toList, [AutoReply.mk "hi".toList "x".toList "U1".toList])]
        (AutoReply.mk "hi".toList "x".toList "U1".toList).Trigger "y".toList
        "U2".toList "G".toList =
      ⟨[("G".toList, [AutoReply.mk "hi".toList "x".toList "U1".toList])], false,
        msgOwnership "U2".toList, false⟩ ∧
    removeAutoReply [("G".toList, [AutoReply.mk "hi".toList "x".toList "U1".toList])]
        (AutoReply.mk "hi".toList "x".toList "U1".toList).Trigger
        "U2".toList "G".toList =
      ⟨[("G".toList, [AutoReply.mk "hi".toList "x".toList "U1".toList])], false,
        msgOwnership "U2".toList, false⟩ :=
  ownership_conflict_no_mutation
    [("G".toList, [AutoReply.mk "hi".toList "x".toList "U1".toList])]
    "G".toList "y".toList "U2".toList
    [AutoReply.mk "hi".toList "x".toList "U1".toList]
    (AutoReply.mk "hi".toList "x".toList "U1".toList)
    (by decide) (by decide) (by simp [TrigUnique]) (by decide) (by decide)

/-- C3: in every store reachable from the empty store by `addAutoReply` and
`removeAutoReply`, no two rules of the same scope have case-insensitively
equal triggers. -/
theorem reachable_scope_triggers_unique (s : Store) (h : Reachable s) (g : GoStr)
    (rules : List AutoReply) (hg : findGuild s g = some rules) : TrigUnique rules :=
  ((reachable_inv h).2 g rules hg).1

/-- Witness for C3: the store built by two adds in the same scope. -/
theorem reachable_scope_triggers_unique_witness :
    TrigUnique [AutoReply.mk "hi".toList "a".toList "U1".toList,
      AutoReply.mk "yo".toList "b".toList "U2".toList] :=
  reachable_scope_triggers_unique _
    (Reachable.add "Yo".toList "b".toList "U2".toList "G".toList
      (Reachable.add "hi".toList "a".toList "U1".toList "G".toList Reachable.empty))
    "G".toList _ (by decide)

/-- C4: calling `addAutoReply` twice with identical arguments leaves exactly
the store of the single call: the second call finds the case-insensitively
equal trigger and overwrites response and author in place instead of appending
a duplicate. -/
theorem addAutoReply_idempotent (store : Store) (t resp auth g : GoStr) :
    (addAutoReply (addAutoReply store t resp auth g).store t resp auth g).store =
      (addAutoReply store t resp auth g).store := by
  have hsingle : addScan t resp auth [⟨toLowerGo t, resp, auth⟩] =
      .updated [⟨toLowerGo t, resp, auth⟩] := by
    simp [addScan, eqFold_toLower_left, eqFold_refl]
  cases hfind : findGuild store g with
  | none =>
    rw [addAutoReply_none store t resp auth g hfind]
    have hf1 : findGuild (setGuild store g [⟨toLowerGo t, resp, auth⟩]) g =
        some [⟨toLowerGo t, resp, auth⟩] := findGuild_setGuild_self store g _
    rw [addAutoReply_updated _ t resp auth g _ _ hf1 hsingle, setGuild_setGuild]
  | some rules =>
    cases hscan : addScan t resp auth rules with
    | conflict =>
      have h1 := addAutoReply_conflict store t resp auth g rules hfind hscan
      rw [h1]
      show (addAutoReply store t resp auth g).store = store
      rw [h1]
    | updated rs =>
      rw [addAutoReply_updated store t resp auth g rules rs hfind hscan]
      have hf1 : findGuild (setGuild store g rs) g = some rs :=
        findGuild_setGuild_self store g rs
      rw [addAutoReply_updated _ t resp auth g rs rs hf1
        (addScan_updated_again _ _ _ _ _ hscan), setGuild_setGuild]
    | noMatch =>
      rw [addAutoReply_nomatch store t resp auth g rules hfind hscan]
      have hf1 : findGuild (setGuild store g (rules ++ [⟨toLowerGo t, resp, auth⟩])) g =
          some (rules ++ [⟨toLowerGo t, resp, auth⟩]) :=
        findGuild_setGuild_self store g _
      have hscan2 : addScan t resp auth (rules ++ [⟨toLowerGo t, resp, auth⟩]) =
          .updated (rules ++ [⟨toLowerGo t, resp, auth⟩]) := by
        rw [addScan_append t resp auth rules _ (addScan_nomatch _ _ _ _ hscan), hsingle]
      rw [addAutoReply_updated _ t resp auth g _ _ hf1 hscan2, setGuild_setGuild]

/-- C5: the handler applies at most one rule per message: if a reply is sent,
its rule matches, and it is the first rule in the scope's iteration order that
matches — every earlier rule fails the match test. -/
theorem messageCreate_first_match (store : Store) (m : Msg) (r : AutoReply)
    (h : messageCreate store m = some r) :
    containsWholeWord (toLowerGo (trimSpaceGo m.content)) r.Trigger = true ∧
      ∃ pre post, (findGuild store m.guildID).getD [] = pre ++ r :: post ∧
        ∀ r' ∈ pre,
          containsWholeWord (toLowerGo (trimSpaceGo m.content)) r'.Trigger = false :=
  messageCreate_some store m r h

/-- Witness for C5: a scope whose two rules both match the message; the first
one is the reply. -/
theorem messageCreate_first_match_witness :
    containsWholeWord
        (toLowerGo (trimSpaceGo "go home now".toList))
        (AutoReply.mk "go".toList "a".toList "U1".toList).Trigger = true ∧
      ∃ pre post,
        (findGuild
          [("G".toList, [AutoReply.mk "go".toList "a".toList "U1".toList,
            AutoReply.mk "home".toList "b".toList "U2".toList])]
          (Msg.mk false "G".toList "go home now".toList).guildID).getD [] =
            pre ++ AutoReply.mk "go".toList "a".toList "U1".toList :: post ∧
          ∀ r' ∈ pre,
            containsWholeWord (toLowerGo (trimSpaceGo "go home now".toList))
              r'.Trigger = false :=
  messageCreate_first_match
    [("G".toList, [AutoReply.mk "go".toList "a".toList "U1".toList,
      AutoReply.mk "home".toList "b".toList "U2".toList])]
    (Msg.mk false "G".toList "go home now".toList)
    (AutoReply.mk "go".toList "a".toList "U1".toList) (by decide)

/-- C6: removing a trigger with no case-insensitively equal trigger in the
scope returns the not-found outcome and changes nothing: same store, `ok`
false, not-found message, and no persistence write. -/
theorem removeAutoReply_not_found (store : Store) (t auth g : GoStr)
    (h : ∀ r ∈ (findGuild store g).getD [], eqFold r.Trigger t = false) :
    removeAutoReply store t auth g = ⟨store, false, msgNotFound, false⟩ := by
  cases hfind : findGuild store g with
  | none => exact removeAutoReply_none store t auth g hfind
  | some rules =>
    rw [hfind] at h
    exact removeAutoReply_nomatch store t auth g rules hfind
      (removeScan_nomatch_of t auth rules h)

/-- Witness for C6: removing `"bye"` from a scope holding only `"hi"`. -/
theorem removeAutoReply_not_found_witness :
    removeAutoReply [("G".toList, [AutoReply.mk "hi".toList "x".toList "U1".toList])]
        "bye".toList "U1".toList "G".toList =
      ⟨[("G".toList, [AutoReply.mk "hi".toList "x".toList "U1".toList])], false,
        msgNotFound, false⟩ :=
  removeAutoReply_not_found
    [("G".toList, [AutoReply.mk "hi".toList "x".toList "U1".toList])]
    "bye".toList "U1".toList "G".toList (by decide)

/-- C7: a successful removal of a scope's only rule deletes the scope key
itself from the store: afterwards the scope is absent, not mapped to an empty
list. -/
theorem removeAutoReply_drops_empty_scope (store : Store) (g auth : GoStr)
    (r : AutoReply) (hnd : (store.map Prod.fst).Nodup)
    (hg : findGuild store g = some [r])
    (hauth : r.AuthorID = [] ∨ r.AuthorID = auth) :
    (removeAutoReply store r.Trigger auth g).ok = true ∧
      (removeAutoReply store r.Trigger auth g).store = delGuild store g ∧
      findGuild (removeAutoReply store r.Trigger auth g).store g = none := by
  have hcond : ¬(r.AuthorID ≠ [] ∧ r.AuthorID ≠ auth) := by
    rcases hauth with h | h <;> simp [h]
  have hscan : removeScan r.Trigger auth [r] = .removed [] := by
    simp [removeScan, eqFold_refl, hcond]
  rw [removeAutoReply_removed store r.Trigger auth g [r] [] hg hscan]
  simp [findGuild_delGuild_self store g hnd]

/-- Witness for C7: removing the only rule of scope `"G"` by its author. -/
theorem removeAutoReply_drops_empty_scope_witness :
    (removeAutoReply [("G".toList, [AutoReply.mk "bye".toList "cya".toList "U1".toList])]
        (AutoReply.mk "bye".toList "cya".toList "U1".toList).Trigger
        "U1".toList "G".toList).ok = true ∧
      (removeAutoReply [("G".toList, [AutoReply.mk "bye".toList "cya".toList "U1".toList])]
          (AutoReply.mk "bye".toList "cya".toList "U1".toList).Trigger
          "U1".toList "G".toList).store =
        delGuild [("G".toList, [AutoReply.mk "bye".toList "cya".toList "U1".toList])]
          "G".toList ∧
      findGuild (removeAutoReply
          [("G".toList, [AutoReply.mk "bye".toList "cya".toList "U1".toList])]
          (AutoReply.mk "bye".toList "cya".toList "U1".toList).Trigger
          "U1".toList "G".toList).store "G".toList = none :=
  removeAutoReply_drops_empty_scope
    [("G".toList, [AutoReply.mk "bye".toList "cya".toList "U1".toList])]
    "G".toList "U1".toList (AutoReply.mk "bye".toList "cya".toList "U1".toList)
    (by decide) (by decide) (Or.inr (by decide))

/-- C8: a message whose content is empty after trimming and case-folding
produces no reply, and a token made only of the stripped punctuation runes
(which trims to the empty word) never equals a non-empty trigger. -/
theorem empty_content_and_punct_tokens :
    (∀ (store : Store) (m : Msg), toLowerGo (trimSpaceGo m.content) = [] →
        messageCreate store m = none) ∧
      ∀ (trig w : GoStr), trig ≠ [] → (∀ c ∈ w, isCut c = true) → trimCut w ≠ trig := by
  constructor
  · intro store m hempty
    simp [messageCreate, hempty]
  · intro trig w htrig hcut
    rw [trimCut_allcut w hcut]
    exact fun h => htrig h.symm

/-- Witness for C8: an all-whitespace message in a scope with a rule, and the
punctuation-only token `"!?*"` against trigger `"go"`. -/
theorem empty_content_and_punct_tokens_witness :
    messageCreate [("G".toList, [AutoReply.mk "go".toList "x".toList "U1".toList])]
        (Msg.mk false "G".toList "   ".toList) = none ∧
      trimCut "!?*".toList ≠ "go".toList :=
  ⟨empty_content_and_punct_tokens.1
      [("G".toList, [AutoReply.mk "go".toList "x".toList "U1".toList])]
      (Msg.mk false "G".toList "   ".toList) (by decide),
    empty_content_and_punct_tokens.2 "go".toList "!?*".toList (by decide) (by decide)⟩

/-- C9: serializing the store and deserializing it reproduces it exactly —
every scope's rule list in order with all three fields intact — and the
serialized `author_id` is omitted precisely when the author is empty. -/
theorem save_load_roundtrip :
    (∀ s : Store, loadAutoReplies (saveAutoReplies s) = s) ∧
      ∀ r : AutoReply, ((marshalRule r).author_id = none ↔ r.AuthorID = []) := by
  have hrule : ∀ r : AutoReply, unmarshalRule (marshalRule r) = r := by
    intro r
    obtain ⟨tr, resp, auth⟩ := r
    unfold marshalRule unmarshalRule
    by_cases h : auth = [] <;> simp [h]
  constructor
  · intro s
    unfold loadAutoReplies saveAutoReplies
    rw [List.map_map]
    apply List.map_id''
    intro kv
    obtain ⟨k, v⟩ := kv
    simp [Function.comp_def, hrule]
  · intro r
    unfold marshalRule
    by_cases h : r.AuthorID = [] <;> simp [h]

/-- Witness for C9: a two-scope store, one rule authored and one unowned. -/
theorem save_load_roundtrip_witness :
    loadAutoReplies (saveAutoReplies
        [("G1".toList, [AutoReply.mk "hi".toList "a".toList "U1".toList]),
          ("G2".toList, [AutoReply.mk "yo".toList "b".toList []])]) =
      [("G1".toList, [AutoReply.mk "hi".toList "a".toList "U1".toList]),
        ("G2".toList, [AutoReply.mk "yo".toList "b".toList []])] ∧
      ((marshalRule (AutoReply.mk "yo".toList "b".toList [])).author_id = none ↔
        (AutoReply.mk "yo".toList "b".toList []).AuthorID = []) :=
  ⟨save_load_roundtrip.1 _, save_load_roundtrip.2 _⟩

/-- C10: the matcher compares tokens to the trigger by plain equality with no
case folding of its own; because the handler lower-cases the message first, a
rule that fires can never have an uppercase basic-latin letter in its stored
trigger — so a stored trigger containing one (e.g. hand-edited persisted
data) never fires. -/
theorem fired_rule_trigger_lowercase (store : Store) (m : Msg) (r : AutoReply)
    (h : messageCreate store m = some r) :
    ∀ c ∈ r.Trigger, ¬(c.toNat ≥ 65 ∧ c.toNat ≤ 90) := by
  intro c hc
  obtain ⟨hcw, -⟩ := messageCreate_some store m r h
  rw [containsWholeWord, List.any_eq_true] at hcw
  obtain ⟨w, hw, hww⟩ := hcw
  rw [beq_iff_eq] at hww
  rw [← hww] at hc
  have hcs : c ∈ toLowerGo (trimSpaceGo m.content) :=
    mem_fieldsGo_subset _ w hw c (trimCut_subset w c hc)
  rw [toLowerGo, List.mem_map] at hcs
  obtain ⟨d, -, rfl⟩ := hcs
  exact toLower_not_upper d

/-- Witness for C10: the fired rule for trigger `"go"`, whose trigger indeed
has no uppercase letter. -/
theorem fired_rule_trigger_lowercase_witness :
    ¬(Char.toNat 'g' ≥ 65 ∧ Char.toNat 'g' ≤ 90) :=
  fired_rule_trigger_lowercase
    [("G".toList, [AutoReply.mk "go".toList "r".toList "U1".toList])]
    (Msg.mk false "G".toList "go now".toList)
    (AutoReply.mk "go".toList "r".toList "U1".toList) (by decide) 'g' (by decide)

end Bot
